import Mathlib

/-!
# Per-band statistics kernels of ArCo_LabDPC

Shallow embedding of `src/task1/task1.cpp` (`calculateCentroidDPC`) and
`src/task2/task2.cpp` (`calculateDPC`, `loadHyperspectralBlock`).

Modelling conventions.

* `BANDS` comes from `Configurations.h`, which is not part of the sources; it is
  a parameter of every definition that uses it.
* `unsigned short` samples are `Fin 65536`.
* `int` is `Int` reduced to the signed 32-bit range by `wrapInt` after every
  arithmetic operation (two's complement wrap-around).
* `double` values are exact rationals; `none` stands for a value that is not a
  finite number (the quotient of a division by `0.0`).  The running sum of at
  most `2^31` samples below `2^16` stays below `2^53`, so it is exact in a
  `double`; the rounding of the final quotient and product is not modelled.
* The `int` division by zero is undefined behaviour in C++.  A work item that
  executes it ends in `Outcome.undefinedBehaviour`: nothing is said of what it
  writes afterwards, and a call with such a work item is undefined as a whole.
* A read of the image buffer is `List.getD` with default `0`; the index
  `i * BANDS + band` is a natural number.
* The SYCL `parallel_for` over `BANDS` work items collects the results of the
  work items `0 .. BANDS - 1`: every work item reads the shared immutable block
  and writes its own slot of every output array.
-/

namespace LabDPC

/-! ## Machine arithmetic -/

/-- An `unsigned short` sample. -/
abbrev UShort := Fin 65536

/-- Reduction of an integer to the signed 32-bit range `[-2^31, 2^31)`. -/
def wrapInt (x : Int) : Int :=
  (x + 2147483648) % 4294967296 - 2147483648

/-- The C++ quotient `a / b` on `int` (`sum / blockSize`, `sumSq / blockSize`):
truncation toward zero, undefined for `b = 0`. -/
def intDiv (a b : Int) : Option Int :=
  if b = 0 then none else some (wrapInt (Int.tdiv a b))

/-- The C++ quotient `x / n` with `x : double` and `n : int` converted to `double`
(`sumForVariance / blockSize`). -/
def doubleDiv (x : ℚ) (n : Int) : Option ℚ :=
  if n = 0 then none else some (x / (n : ℚ))

/-! ## Image access -/

/-- Index of the sample of pixel `i` in band `band` (pixel-major layout). -/
def pixelIndex (BANDS i band : Nat) : Nat :=
  i * BANDS + band

/-- Read accessor `imgAcc[idx]` on the image buffer. -/
def imgAcc (imageBlock : List UShort) (idx : Nat) : UShort :=
  imageBlock.getD idx 0

/-! ## task1 / task2: `loadHyperspectralBlock` -/

/-- Mock loader, `std::vector<unsigned short> data(blockSize * bands, 1)`
(task1.cpp:10-13, task2.cpp:10-13; the file name is not used): the element count
is the `int` product converted to `size_t`; a negative count becomes a size
beyond `max_size()` and the constructor throws, which is `none`. -/
def loadHyperspectralBlock (_filename : String) (blockSize bands : Int) :
    Option (List UShort) :=
  let count := wrapInt (blockSize * bands)
  if count < 0 then none else some (List.replicate count.toNat 1)

/-! ## Outcome of a call -/

/-- Errors a call can signal to its caller.  The specification names
`InvalidBlockSize`; the sources contain no `throw` and no status return. -/
inductive KernelError where
  | InvalidBlockSize
  deriving DecidableEq

/-- How a work item or a call ends: it returns a value, it signals an error to
the caller, or it executes an operation whose behaviour C++ leaves undefined. -/
inductive Outcome (α : Type) where
  | returned (value : α)
  | failed (error : KernelError)
  | undefinedBehaviour
  deriving DecidableEq

/-- Outcomes of independent work items put together: undefined as soon as one
work item is, failed if one signals an error, the list of values otherwise. -/
def Outcome.gather {α : Type} : List (Outcome α) → Outcome (List α)
  | [] => Outcome.returned []
  | o :: os =>
    match Outcome.gather os with
    | Outcome.undefinedBehaviour => Outcome.undefinedBehaviour
    | Outcome.failed e =>
      match o with
      | Outcome.undefinedBehaviour => Outcome.undefinedBehaviour
      | Outcome.failed e₁ => Outcome.failed e₁
      | Outcome.returned _ => Outcome.failed e
    | Outcome.returned as =>
      match o with
      | Outcome.undefinedBehaviour => Outcome.undefinedBehaviour
      | Outcome.failed e₁ => Outcome.failed e₁
      | Outcome.returned a => Outcome.returned (a :: as)

/-- The launch `h.parallel_for(workRange, kernel)` followed by `q.wait()`: one work
item per index below `workRange`. -/
def parallel_for {α : Type} (workRange : Nat) (kernel : Nat → Outcome α) :
    Outcome (List α) :=
  Outcome.gather ((List.range workRange).map kernel)

/-! ## task1: `calculateCentroidDPC` -/

/-- One iteration of the loop of the centroid kernel: `sum += imgAcc[i * BANDS + band]`. -/
def centroidBody (BANDS : Nat) (imageBlock : List UShort) (band : Nat)
    (sum : Int) (i : Nat) : Int :=
  wrapInt (sum + ((imgAcc imageBlock (pixelIndex BANDS i band)).val : Int))

/-- Work item `band` of the centroid kernel (task1.cpp:32-38): the loop, then
`centroidAcc[band] = sum / blockSize`. -/
def centroidKernel (BANDS : Nat) (imageBlock : List UShort) (blockSize : Int)
    (band : Nat) : Outcome Int :=
  let sum := (List.range blockSize.toNat).foldl (centroidBody BANDS imageBlock band) 0
  match intDiv sum blockSize with
  | none => Outcome.undefinedBehaviour
  | some centroid => Outcome.returned centroid

/-- The centroid array written by `calculateCentroidDPC`. -/
def calculateCentroidDPC (BANDS : Nat) (imageBlock : List UShort)
    (blockSize : Int) : Outcome (List Int) :=
  parallel_for BANDS (centroidKernel BANDS imageBlock blockSize)

/-! ## task2: `calculateDPC` -/

/-- Local variables of one work item of the statistics kernel. -/
structure Accumulators where
  sum : Int
  sumSq : Int
  sumForVariance : ℚ
  deriving DecidableEq

/-- One iteration of the loop of the statistics kernel (task2.cpp:48-51). -/
def dpcBody (BANDS : Nat) (imageBlock : List UShort) (band : Nat)
    (acc : Accumulators) (i : Nat) : Accumulators :=
  let pixelValue : Int := ((imgAcc imageBlock (pixelIndex BANDS i band)).val : Int)
  { sum := wrapInt (acc.sum + pixelValue)
    sumSq := wrapInt (acc.sumSq + wrapInt (pixelValue * pixelValue))
    sumForVariance := acc.sumForVariance + (pixelValue : ℚ) }

/-- The loop `for (int i = 0; i < blockSize; ++i)` of the statistics kernel. -/
def dpcLoop (BANDS : Nat) (imageBlock : List UShort) (blockSize : Int)
    (band : Nat) : Accumulators :=
  (List.range blockSize.toNat).foldl (dpcBody BANDS imageBlock band)
    { sum := 0, sumSq := 0, sumForVariance := 0 }

/-- What one work item writes to its slot of the four output arrays. -/
structure BandResult where
  centroid : Int
  mean : Option ℚ
  variance : Option ℚ
  sumOfSquares : Int
  deriving DecidableEq

/-- Work item `band` of the statistics kernel (task2.cpp:43-58).  The statements
after the loop run in source order: `sum / blockSize` (line 54), then
`sumForVariance / blockSize` (line 55), then
`sumSq / blockSize - mean * mean` (line 56), then the store of `sumSq` (line 57). -/
def dpcKernel (BANDS : Nat) (imageBlock : List UShort) (blockSize : Int)
    (band : Nat) : Outcome BandResult :=
  let acc := dpcLoop BANDS imageBlock blockSize band
  match intDiv acc.sum blockSize with
  | none => Outcome.undefinedBehaviour
  | some centroid =>
    let mean := doubleDiv acc.sumForVariance blockSize
    match intDiv acc.sumSq blockSize with
    | none => Outcome.undefinedBehaviour
    | some q =>
      Outcome.returned
        { centroid := centroid
          mean := mean
          variance := mean.bind fun m => some ((q : ℚ) - m * m)
          sumOfSquares := acc.sumSq }

/-- The four output arrays of `calculateDPC`. -/
structure DPCOutput where
  centroid : List Int
  mean : List (Option ℚ)
  variance : List (Option ℚ)
  sumOfSquares : List Int
  deriving DecidableEq

/-- The arrays written by `calculateDPC` (task2.cpp:15-75). -/
def calculateDPC (BANDS : Nat) (imageBlock : List UShort) (blockSize : Int) :
    Outcome DPCOutput :=
  match parallel_for BANDS (dpcKernel BANDS imageBlock blockSize) with
  | Outcome.returned slots =>
    Outcome.returned
      { centroid := slots.map (fun r => r.centroid)
        mean := slots.map (fun r => r.mean)
        variance := slots.map (fun r => r.variance)
        sumOfSquares := slots.map (fun r => r.sumOfSquares) }
  | Outcome.failed e => Outcome.failed e
  | Outcome.undefinedBehaviour => Outcome.undefinedBehaviour

/-! ## Reference quantities of the specification -/

/-- The samples of band `band` over the pixels `0 .. blockSize - 1`, in pixel order. -/
def bandSamples (BANDS : Nat) (imageBlock : List UShort) (blockSize : Int)
    (band : Nat) : List Int :=
  (List.range blockSize.toNat).map
    fun i => ((imgAcc imageBlock (pixelIndex BANDS i band)).val : Int)

/-- Exact sum of the samples of a band. -/
def bandSum (BANDS : Nat) (imageBlock : List UShort) (blockSize : Int) (band : Nat) : Int :=
  (bandSamples BANDS imageBlock blockSize band).sum

/-- Exact sum of the squares of the samples of a band. -/
def bandSumSq (BANDS : Nat) (imageBlock : List UShort) (blockSize : Int) (band : Nat) : Int :=
  ((bandSamples BANDS imageBlock blockSize band).map fun v => v * v).sum

/-- Population variance `E[X^2] - (E[X])^2` of a band, over the rationals. -/
def populationVariance (BANDS : Nat) (imageBlock : List UShort) (blockSize : Int)
    (band : Nat) : ℚ :=
  (bandSumSq BANDS imageBlock blockSize band : ℚ) / (blockSize : ℚ)
    - ((bandSum BANDS imageBlock blockSize band : ℚ) / (blockSize : ℚ)) ^ 2

/-- Smallest sample of a band (`65535` bounds every sample from above). -/
def bandMin (BANDS : Nat) (imageBlock : List UShort) (blockSize : Int) (band : Nat) : Int :=
  (bandSamples BANDS imageBlock blockSize band).foldr min 65535

/-- Largest sample of a band (`0` bounds every sample from below). -/
def bandMax (BANDS : Nat) (imageBlock : List UShort) (blockSize : Int) (band : Nat) : Int :=
  (bandSamples BANDS imageBlock blockSize band).foldr max 0

/-- The `BANDS` samples of pixel `i`. -/
def pixelRow (BANDS : Nat) (imageBlock : List UShort) (i : Nat) : List UShort :=
  (List.range BANDS).map fun band => imgAcc imageBlock (pixelIndex BANDS i band)

/-- The block whose pixel `k` is pixel `order[k]` of `imageBlock`. -/
def reorderPixels (BANDS : Nat) (imageBlock : List UShort) (order : List Nat) : List UShort :=
  (order.map (pixelRow BANDS imageBlock)).flatten

/-! ## Lemmas on machine arithmetic -/

theorem wrapInt_eq_self {x : Int} (h₁ : -2147483648 ≤ x) (h₂ : x ≤ 2147483647) :
    wrapInt x = x := by
  unfold wrapInt; omega

theorem wrapInt_wrapInt_add (a b : Int) : wrapInt (wrapInt a + b) = wrapInt (a + b) := by
  unfold wrapInt; omega

theorem wrapInt_add_wrapInt (a b : Int) : wrapInt (a + wrapInt b) = wrapInt (a + b) := by
  unfold wrapInt; omega

theorem wrapInt_zero : wrapInt 0 = 0 := by decide

/-! ## The loops compute the wrapped sums -/

theorem foldl_centroidBody (BANDS : Nat) (imageBlock : List UShort) (band : Nat) (n : Nat) :
    (List.range n).foldl (centroidBody BANDS imageBlock band) 0
      = wrapInt (((List.range n).map
          fun i => ((imgAcc imageBlock (pixelIndex BANDS i band)).val : Int)).sum) := by
  induction n with
  | zero => simp [wrapInt_zero]
  | succ k ih =>
    rw [List.range_succ, List.foldl_append, ih]
    simp [centroidBody, wrapInt_wrapInt_add]

theorem foldl_dpcBody (BANDS : Nat) (imageBlock : List UShort) (band : Nat) (n : Nat) :
    (List.range n).foldl (dpcBody BANDS imageBlock band)
        { sum := 0, sumSq := 0, sumForVariance := 0 }
      = { sum := wrapInt (((List.range n).map
            fun i => ((imgAcc imageBlock (pixelIndex BANDS i band)).val : Int)).sum)
          sumSq := wrapInt ((((List.range n).map
            fun i => ((imgAcc imageBlock (pixelIndex BANDS i band)).val : Int)).map
              fun v => v * v).sum)
          sumForVariance := ((((List.range n).map
            fun i => ((imgAcc imageBlock (pixelIndex BANDS i band)).val : Int)).sum : Int) : ℚ) } := by
  induction n with
  | zero => simp [wrapInt_zero]
  | succ k ih =>
    rw [List.range_succ, List.foldl_append, ih]
    simp [dpcBody, wrapInt_wrapInt_add, wrapInt_add_wrapInt]

theorem dpcLoop_eq (BANDS : Nat) (imageBlock : List UShort) (blockSize : Int) (band : Nat) :
    dpcLoop BANDS imageBlock blockSize band
      = { sum := wrapInt (bandSum BANDS imageBlock blockSize band)
          sumSq := wrapInt (bandSumSq BANDS imageBlock blockSize band)
          sumForVariance := (bandSum BANDS imageBlock blockSize band : ℚ) } := by
  unfold dpcLoop bandSum bandSumSq bandSamples
  exact foldl_dpcBody BANDS imageBlock band blockSize.toNat

/-! ## Facts on the band samples -/

theorem pixelIndex_lt {BANDS n i band : Nat} (hi : i < n) (hb : band < BANDS) :
    pixelIndex BANDS i band < n * BANDS := by
  unfold pixelIndex
  calc i * BANDS + band < i * BANDS + BANDS := by omega
    _ = (i + 1) * BANDS := by ring
    _ ≤ n * BANDS := Nat.mul_le_mul_right BANDS hi

theorem bandSamples_length (BANDS : Nat) (imageBlock : List UShort) (blockSize : Int)
    (band : Nat) : (bandSamples BANDS imageBlock blockSize band).length = blockSize.toNat := by
  simp [bandSamples]

theorem bandSamples_bounds (BANDS : Nat) (imageBlock : List UShort) (blockSize : Int)
    (band : Nat) : ∀ v ∈ bandSamples BANDS imageBlock blockSize band, 0 ≤ v ∧ v ≤ 65535 := by
  intro v hv
  simp only [bandSamples, List.mem_map] at hv
  obtain ⟨i, _, rfl⟩ := hv
  have := (imgAcc imageBlock (pixelIndex BANDS i band)).isLt
  omega

theorem list_sum_bounds (l : List Int) (lo hi : Int) (h : ∀ v ∈ l, lo ≤ v ∧ v ≤ hi) :
    (l.length : Int) * lo ≤ l.sum ∧ l.sum ≤ (l.length : Int) * hi := by
  induction l with
  | nil => simp
  | cons a t ih =>
    have ha := h a (List.mem_cons_self a t)
    have ht := ih fun v hv => h v (List.mem_cons_of_mem a hv)
    simp only [List.length_cons, List.sum_cons, Nat.cast_add, Nat.cast_one]
    constructor <;> nlinarith [ht.1, ht.2, ha.1, ha.2]

theorem bandSum_nonneg (BANDS : Nat) (imageBlock : List UShort) (blockSize : Int)
    (band : Nat) : 0 ≤ bandSum BANDS imageBlock blockSize band := by
  have h := (list_sum_bounds _ 0 65535 (bandSamples_bounds BANDS imageBlock blockSize band)).1
  simpa [bandSum] using h

theorem bandSum_le (BANDS : Nat) (imageBlock : List UShort) (blockSize : Int)
    (band : Nat) :
    bandSum BANDS imageBlock blockSize band ≤ (blockSize.toNat : Int) * 65535 := by
  have h := (list_sum_bounds _ 0 65535 (bandSamples_bounds BANDS imageBlock blockSize band)).2
  simpa [bandSum, bandSamples_length] using h

theorem bandSumSq_nonneg (BANDS : Nat) (imageBlock : List UShort) (blockSize : Int)
    (band : Nat) : 0 ≤ bandSumSq BANDS imageBlock blockSize band := by
  unfold bandSumSq
  apply List.sum_nonneg
  intro x hx
  simp only [List.mem_map] at hx
  obtain ⟨v, _, rfl⟩ := hx
  exact mul_self_nonneg v

theorem imgAcc_replicate {m idx : Nat} (v : UShort) (h : idx < m) :
    imgAcc (List.replicate m v) idx = v := by
  simp [imgAcc, List.getElem?_replicate, h]

theorem bandSamples_replicate {BANDS m band : Nat} (v : UShort) (blockSize : Int)
    (hm : blockSize.toNat * BANDS ≤ m) (hb : band < BANDS) :
    bandSamples BANDS (List.replicate m v) blockSize band
      = List.replicate blockSize.toNat (v.val : Int) := by
  unfold bandSamples
  rw [List.map_congr_left (g := fun _ => (v.val : Int))]
  · simp [List.map_const']
  · intro i hi
    rw [imgAcc_replicate]
    exact lt_of_lt_of_le (pixelIndex_lt (List.mem_range.mp hi) hb) hm

theorem bandSum_replicate {BANDS m band : Nat} (v : UShort) (blockSize : Int)
    (hm : blockSize.toNat * BANDS ≤ m) (hb : band < BANDS) :
    bandSum BANDS (List.replicate m v) blockSize band = (blockSize.toNat : Int) * (v.val : Int) := by
  simp [bandSum, bandSamples_replicate v blockSize hm hb]

theorem bandSumSq_replicate {BANDS m band : Nat} (v : UShort) (blockSize : Int)
    (hm : blockSize.toNat * BANDS ≤ m) (hb : band < BANDS) :
    bandSumSq BANDS (List.replicate m v) blockSize band
      = (blockSize.toNat : Int) * ((v.val : Int) * (v.val : Int)) := by
  simp [bandSumSq, bandSamples_replicate v blockSize hm hb]

/-! ## Outcomes of the work items and of the calls -/

theorem gather_map_returned {α β : Type} (f : β → Outcome α) (g : β → α) (l : List β)
    (h : ∀ b ∈ l, f b = Outcome.returned (g b)) :
    Outcome.gather (l.map f) = Outcome.returned (l.map g) := by
  induction l with
  | nil => rfl
  | cons a t ih =>
    have ha := h a (List.mem_cons_self a t)
    have ht := ih fun b hb => h b (List.mem_cons_of_mem a hb)
    simp [Outcome.gather, ha, ht]

theorem getElem?_map_range {α : Type} (f : Nat → α) {n band : Nat} (h : band < n) :
    ((List.range n).map f)[band]? = some (f band) := by
  simp [List.getElem?_range, h]

theorem intDiv_of_ne_zero (a : Int) {b : Int} (hb : b ≠ 0) :
    intDiv a b = some (wrapInt (Int.tdiv a b)) := by
  simp [intDiv, hb]

/-- For a positive divisor and a dividend in `[0, 2^31)` the `int` quotient is the
floor quotient. -/
theorem wrapInt_tdiv_of_nonneg {a b : Int} (ha : 0 ≤ a) (ha2 : a ≤ 2147483647) (hb : 0 < b) :
    wrapInt (Int.tdiv a b) = a / b := by
  have hq : a.tdiv b = a / b := Int.tdiv_eq_ediv ha hb.le
  have h0 : 0 ≤ a / b := Int.ediv_nonneg ha hb.le
  have h1 : a / b ≤ a := Int.ediv_le_self b ha
  rw [hq, wrapInt_eq_self (by omega) (by omega)]

theorem centroidKernel_eq (BANDS : Nat) (imageBlock : List UShort) {blockSize : Int}
    (hne : blockSize ≠ 0) (band : Nat) :
    centroidKernel BANDS imageBlock blockSize band
      = Outcome.returned
          (wrapInt (Int.tdiv (wrapInt (bandSum BANDS imageBlock blockSize band)) blockSize)) := by
  simp [centroidKernel, foldl_centroidBody, bandSum, bandSamples, intDiv, hne]

/-- The kernel result in terms of the exact band sums, for a nonzero `blockSize`. -/
theorem dpcKernel_eq (BANDS : Nat) (imageBlock : List UShort) {blockSize : Int}
    (hne : blockSize ≠ 0) (band : Nat) :
    dpcKernel BANDS imageBlock blockSize band
      = Outcome.returned
          { centroid :=
              wrapInt (Int.tdiv (wrapInt (bandSum BANDS imageBlock blockSize band)) blockSize)
            mean := some ((bandSum BANDS imageBlock blockSize band : ℚ) / (blockSize : ℚ))
            variance := some
              (((wrapInt (Int.tdiv (wrapInt (bandSumSq BANDS imageBlock blockSize band))
                  blockSize) : Int) : ℚ)
                - (bandSum BANDS imageBlock blockSize band : ℚ) / (blockSize : ℚ)
                  * ((bandSum BANDS imageBlock blockSize band : ℚ) / (blockSize : ℚ)))
            sumOfSquares := wrapInt (bandSumSq BANDS imageBlock blockSize band) } := by
  simp [dpcKernel, dpcLoop_eq, intDiv, doubleDiv, hne]

theorem calculateCentroidDPC_eq (BANDS : Nat) (imageBlock : List UShort) {blockSize : Int}
    (hne : blockSize ≠ 0) :
    calculateCentroidDPC BANDS imageBlock blockSize
      = Outcome.returned ((List.range BANDS).map fun band =>
          wrapInt (Int.tdiv (wrapInt (bandSum BANDS imageBlock blockSize band)) blockSize)) := by
  unfold calculateCentroidDPC parallel_for
  exact gather_map_returned _ _ _ fun band _ => centroidKernel_eq BANDS imageBlock hne band

theorem calculateDPC_eq (BANDS : Nat) (imageBlock : List UShort) {blockSize : Int}
    (hne : blockSize ≠ 0) :
    calculateDPC BANDS imageBlock blockSize
      = Outcome.returned
          { centroid := (List.range BANDS).map fun band =>
              wrapInt (Int.tdiv (wrapInt (bandSum BANDS imageBlock blockSize band)) blockSize)
            mean := (List.range BANDS).map fun band =>
              some ((bandSum BANDS imageBlock blockSize band : ℚ) / (blockSize : ℚ))
            variance := (List.range BANDS).map fun band => some
              (((wrapInt (Int.tdiv (wrapInt (bandSumSq BANDS imageBlock blockSize band))
                  blockSize) : Int) : ℚ)
                - (bandSum BANDS imageBlock blockSize band : ℚ) / (blockSize : ℚ)
                  * ((bandSum BANDS imageBlock blockSize band : ℚ) / (blockSize : ℚ)))
            sumOfSquares := (List.range BANDS).map fun band =>
              wrapInt (bandSumSq BANDS imageBlock blockSize band) } := by
  have h := gather_map_returned (dpcKernel BANDS imageBlock blockSize) _ (List.range BANDS)
    fun band _ => dpcKernel_eq BANDS imageBlock hne band
  unfold calculateDPC parallel_for
  rw [h]
  simp [Function.comp_def]

/-- For a nonzero `blockSize` the call returns, and slot `band` of each array holds
the value computed from the exact sums of that band. -/
theorem calculateDPC_slots (BANDS : Nat) (imageBlock : List UShort) {blockSize : Int}
    (hne : blockSize ≠ 0) :
    ∃ out, calculateDPC BANDS imageBlock blockSize = Outcome.returned out ∧
      out.centroid.length = BANDS ∧ out.mean.length = BANDS ∧
      out.variance.length = BANDS ∧ out.sumOfSquares.length = BANDS ∧
      ∀ band, band < BANDS →
        out.centroid[band]? = some
          (wrapInt (Int.tdiv (wrapInt (bandSum BANDS imageBlock blockSize band)) blockSize)) ∧
        out.mean[band]? = some
          (some ((bandSum BANDS imageBlock blockSize band : ℚ) / (blockSize : ℚ))) ∧
        out.variance[band]? = some (some
          (((wrapInt (Int.tdiv (wrapInt (bandSumSq BANDS imageBlock blockSize band))
              blockSize) : Int) : ℚ)
            - (bandSum BANDS imageBlock blockSize band : ℚ) / (blockSize : ℚ)
              * ((bandSum BANDS imageBlock blockSize band : ℚ) / (blockSize : ℚ)))) ∧
        out.sumOfSquares[band]? = some (wrapInt (bandSumSq BANDS imageBlock blockSize band)) := by
  refine ⟨_, calculateDPC_eq BANDS imageBlock hne, by simp, by simp, by simp, by simp, ?_⟩
  intro band hb
  exact ⟨getElem?_map_range _ hb, getElem?_map_range _ hb, getElem?_map_range _ hb,
    getElem?_map_range _ hb⟩

theorem calculateCentroidDPC_slots (BANDS : Nat) (imageBlock : List UShort) {blockSize : Int}
    (hne : blockSize ≠ 0) :
    ∃ cents, calculateCentroidDPC BANDS imageBlock blockSize = Outcome.returned cents ∧
      cents.length = BANDS ∧
      ∀ band, band < BANDS →
        cents[band]? = some
          (wrapInt (Int.tdiv (wrapInt (bandSum BANDS imageBlock blockSize band)) blockSize)) := by
  refine ⟨_, calculateCentroidDPC_eq BANDS imageBlock hne, by simp, ?_⟩
  intro band hb
  exact getElem?_map_range _ hb

/-! ## C1: the reported variance -/

/-- C1 (fails on the code): on the block `[0, 1]` with `BANDS = 1`, `blockSize = 2`
no accumulator overflows, the population variance of band 0 is `1/4`, and
`calculateDPC` returns with variance `-1/4` for band 0, because
`sumSq / blockSize` is the truncating `int` quotient `1 / 2 = 0`. -/
theorem C1_variance_truncated_quotient :
    bandSum 1 [0, 1] 2 0 = 1 ∧ bandSumSq 1 [0, 1] 2 0 = 1 ∧
    populationVariance 1 [0, 1] 2 0 = 1 / 4 ∧
    ∃ out, calculateDPC 1 [0, 1] 2 = Outcome.returned out ∧
      out.variance[0]? = some (some (-1 / 4 : ℚ)) := by
  have hs : bandSum 1 [0, 1] 2 0 = 1 := by decide
  have hq : bandSumSq 1 [0, 1] 2 0 = 1 := by decide
  obtain ⟨out, hout, _, _, _, _, hslots⟩ :=
    calculateDPC_slots 1 [0, 1] (by decide : (2 : Int) ≠ 0)
  refine ⟨hs, hq, ?_, out, hout, ?_⟩
  · rw [populationVariance, hs, hq]; norm_num
  · rw [(hslots 0 (by decide)).2.2.1, hs, hq]
    have h : wrapInt (Int.tdiv (wrapInt 1) 2) = 0 := by decide
    rw [h]
    norm_num

/-! ## C2: `blockSize = 0` -/

/-- C3 (counterexample): for the single sample `65535` (`BANDS = 1`, `blockSize = 1`)
the exact sum of squares is `4294836225`, and `calculateDPC` returns with
`sumOfSquares = -131071`. -/
theorem C3_counterexample :
    [(65535 : UShort)].length = (1 : Int).toNat * 1 ∧
    bandSumSq 1 [65535] 1 0 = 4294836225 ∧
    ∃ out, calculateDPC 1 [65535] 1 = Outcome.returned out ∧
      out.sumOfSquares[0]? = some (-131071) := by
  obtain ⟨out, hout, _, _, _, _, hslots⟩ :=
    calculateDPC_slots 1 [65535] (by decide : (1 : Int) ≠ 0)
  refine ⟨by decide, by decide, out, hout, ?_⟩
  rw [(hslots 0 (by decide)).2.2.2]
  decide

/-- C3 (amended): whenever the exact sum of the squares of the samples of a band is
at most `2^31 - 1`, `calculateDPC` returns and the `sumOfSquares` reported for the
band equals that exact sum. -/
theorem C3_sumOfSquares (BANDS : Nat) (imageBlock : List UShort) (blockSize : Int)
    (band : Nat) (hn : 0 < blockSize) (_hlen : imageBlock.length = blockSize.toNat * BANDS)
    (hb : band < BANDS) (hfit : bandSumSq BANDS imageBlock blockSize band ≤ 2147483647) :
    ∃ out, calculateDPC BANDS imageBlock blockSize = Outcome.returned out ∧
      out.sumOfSquares[band]? = some (bandSumSq BANDS imageBlock blockSize band) := by
  have h0 := bandSumSq_nonneg BANDS imageBlock blockSize band
  obtain ⟨out, hout, _, _, _, _, hslots⟩ := calculateDPC_slots BANDS imageBlock hn.ne'
  refine ⟨out, hout, ?_⟩
  rw [(hslots band hb).2.2.2, wrapInt_eq_self (by omega) hfit]

theorem C3_sumOfSquares_witness :
    ((0 : Int) < 2 ∧ ([3, 4, 5, 6] : List UShort).length = (2 : Int).toNat * 2 ∧ 1 < 2 ∧
      bandSumSq 2 [3, 4, 5, 6] 2 1 ≤ 2147483647) ∧
    bandSumSq 2 [3, 4, 5, 6] 2 1 = 52 ∧
    ∃ out, calculateDPC 2 [3, 4, 5, 6] 2 = Outcome.returned out ∧
      out.sumOfSquares[1]? = some (bandSumSq 2 [3, 4, 5, 6] 2 1) :=
  ⟨by decide, by decide,
    C3_sumOfSquares 2 [3, 4, 5, 6] 2 1 (by decide) (by decide) (by decide) (by decide)⟩

/-! ## C4: centroid and mean -/

/-- C4 (counterexample): for 32769 pixels of value `65535` in one band the `int`
sum wraps; the reported centroid is `-65533` while the reported mean is `65535`. -/
theorem C4_counterexample :
    (List.replicate 32769 (65535 : UShort)).length = (32769 : Int).toNat * 1 ∧
    (∃ out, calculateDPC 1 (List.replicate 32769 65535) 32769 = Outcome.returned out ∧
      out.centroid[0]? = some (-65533) ∧
      out.mean[0]? = some (some (65535 : ℚ))) ∧
    (-65533 : Int) ≠ ⌊(65535 : ℚ)⌋ := by
  have hs : bandSum 1 (List.replicate 32769 (65535 : UShort)) 32769 0 = 2147516415 := by
    rw [bandSum_replicate (65535 : UShort) 32769 (by decide) (by decide)]
    decide
  obtain ⟨out, hout, _, _, _, _, hslots⟩ :=
    calculateDPC_slots 1 (List.replicate 32769 (65535 : UShort)) (by decide : (32769 : Int) ≠ 0)
  refine ⟨(List.length_replicate _ _).trans (by decide), ⟨out, hout, ?_, ?_⟩, ?_⟩
  · rw [(hslots 0 (by decide)).1, hs]
    decide
  · rw [(hslots 0 (by decide)).2.1, hs]
    norm_num
  · have h : ⌊(65535 : ℚ)⌋ = 65535 := by
      exact_mod_cast Int.floor_intCast (α := ℚ) 65535
    rw [h]; decide

/-- C4 (amended): when the exact sum of the samples of a band is at most
`2^31 - 1`, `calculateDPC` returns and the centroid reported for the band is the
floor of the mean reported for it. -/
theorem C4_centroid_floor_mean (BANDS : Nat) (imageBlock : List UShort) (blockSize : Int)
    (band : Nat) (hn : 0 < blockSize) (_hlen : imageBlock.length = blockSize.toNat * BANDS)
    (hb : band < BANDS) (hfit : bandSum BANDS imageBlock blockSize band ≤ 2147483647) :
    ∃ (out : DPCOutput) (c : Int) (m : ℚ),
      calculateDPC BANDS imageBlock blockSize = Outcome.returned out ∧
      out.centroid[band]? = some c ∧
      out.mean[band]? = some (some m) ∧
      c = ⌊m⌋ := by
  have h0 := bandSum_nonneg BANDS imageBlock blockSize band
  obtain ⟨out, hout, _, _, _, _, hslots⟩ := calculateDPC_slots BANDS imageBlock hn.ne'
  refine ⟨out, bandSum BANDS imageBlock blockSize band / blockSize,
    (bandSum BANDS imageBlock blockSize band : ℚ) / (blockSize : ℚ), hout, ?_, ?_, ?_⟩
  · rw [(hslots band hb).1, wrapInt_eq_self (by omega) hfit, wrapInt_tdiv_of_nonneg h0 hfit hn]
  · exact (hslots band hb).2.1
  · obtain ⟨n, rfl⟩ := Int.eq_ofNat_of_zero_le hn.le
    rw [Int.cast_natCast]
    exact (Rat.floor_intCast_div_natCast _ n).symm

theorem C4_centroid_floor_mean_witness :
    ((0 : Int) < 2 ∧ ([3, 4, 6, 7] : List UShort).length = (2 : Int).toNat * 2 ∧ 0 < 2 ∧
      bandSum 2 [3, 4, 6, 7] 2 0 ≤ 2147483647) ∧
    ∃ (out : DPCOutput) (c : Int) (m : ℚ),
      calculateDPC 2 [3, 4, 6, 7] 2 = Outcome.returned out ∧
      out.centroid[0]? = some c ∧
      out.mean[0]? = some (some m) ∧
      c = ⌊m⌋ :=
  ⟨by decide,
    C4_centroid_floor_mean 2 [3, 4, 6, 7] 2 0 (by decide) (by decide) (by decide) (by decide)⟩

/-! ## C5: the all-ones block -/

theorem loadHyperspectralBlock_eq (filename : String) {blockSize bands : Int}
    (h₀ : 0 ≤ blockSize * bands) (h₁ : blockSize * bands ≤ 2147483647) :
    loadHyperspectralBlock filename blockSize bands
      = some (List.replicate (blockSize * bands).toNat 1) := by
  have hw : wrapInt (blockSize * bands) = blockSize * bands := wrapInt_eq_self (by omega) h₁
  simp [loadHyperspectralBlock, hw, h₀]

/-- C5 (counterexample): for `blockSize = 536870912 <= 2^31 - 1` and `BANDS = 4` the
`int` product `blockSize * bands` is `2^31`, the element count is negative and
`loadHyperspectralBlock` produces no block; for `blockSize = 1073741825` and
`BANDS = 4` the product wraps to `4` and the block produced has 4 samples, not
`blockSize * BANDS`. -/
theorem C5_counterexample :
    ((0 : Int) < 536870912 ∧ (536870912 : Int) ≤ 2147483647 ∧ 0 < (4 : Nat) ∧
      loadHyperspectralBlock "hyperspectral_data_block.dat" 536870912 ((4 : Nat) : Int)
        = none) ∧
    ((0 : Int) < 1073741825 ∧ (1073741825 : Int) ≤ 2147483647 ∧
      loadHyperspectralBlock "hyperspectral_data_block.dat" 1073741825 ((4 : Nat) : Int)
        = some [1, 1, 1, 1] ∧
      ([1, 1, 1, 1] : List UShort).length ≠ (1073741825 : Int).toNat * 4) := by
  decide

/-- C5 (amended): for `BANDS > 0` and `blockSize > 0` with
`blockSize * BANDS <= 2^31 - 1`, `loadHyperspectralBlock` produces the block of
`blockSize * BANDS` samples all equal to `1`, and on it `calculateDPC` reports for
every band `sumOfSquares = blockSize`, `centroid = 1`, `mean = 1`, `variance = 0`,
and `calculateCentroidDPC` reports `centroid = 1`. -/
theorem C5_all_ones (filename : String) (BANDS : Nat) (blockSize : Int) (hB : 0 < BANDS)
    (hn : 0 < blockSize) (hfit : blockSize * (BANDS : Int) ≤ 2147483647) :
    ∃ (imageBlock : List UShort) (out : DPCOutput) (cents : List Int),
      loadHyperspectralBlock filename blockSize (BANDS : Int) = some imageBlock ∧
      imageBlock.length = blockSize.toNat * BANDS ∧
      (∀ v ∈ imageBlock, v = 1) ∧
      calculateDPC BANDS imageBlock blockSize = Outcome.returned out ∧
      calculateCentroidDPC BANDS imageBlock blockSize = Outcome.returned cents ∧
      ∀ band, band < BANDS →
        out.sumOfSquares[band]? = some blockSize ∧
        out.centroid[band]? = some 1 ∧
        out.mean[band]? = some (some 1) ∧
        out.variance[band]? = some (some 0) ∧
        cents[band]? = some 1 := by
  have hprod : 0 ≤ blockSize * (BANDS : Int) := by positivity
  have hcount : (blockSize * (BANDS : Int)).toNat = blockSize.toNat * BANDS := by
    zify
    rw [Int.toNat_of_nonneg hprod, Int.toNat_of_nonneg hn.le]
  obtain ⟨out, hout, _, _, _, _, hslots⟩ :=
    calculateDPC_slots BANDS (List.replicate (blockSize.toNat * BANDS) (1 : UShort)) hn.ne'
  obtain ⟨cents, hcents, _, hc⟩ :=
    calculateCentroidDPC_slots BANDS (List.replicate (blockSize.toNat * BANDS) (1 : UShort))
      hn.ne'
  refine ⟨List.replicate (blockSize.toNat * BANDS) 1, out, cents, ?_, by simp, ?_, hout,
    hcents, ?_⟩
  · rw [loadHyperspectralBlock_eq filename hprod hfit, hcount]
  · intro v hv
    exact (List.mem_replicate.mp hv).2
  · intro band hb
    have hB1 : (1 : Int) ≤ (BANDS : Int) := by exact_mod_cast hB
    have hle : blockSize ≤ 2147483647 := by nlinarith
    have hs : bandSum BANDS (List.replicate (blockSize.toNat * BANDS) (1 : UShort)) blockSize band
        = blockSize := by
      rw [bandSum_replicate (1 : UShort) blockSize le_rfl hb, Int.toNat_of_nonneg hn.le]
      simp
    have hq : bandSumSq BANDS (List.replicate (blockSize.toNat * BANDS) (1 : UShort))
        blockSize band = blockSize := by
      rw [bandSumSq_replicate (1 : UShort) blockSize le_rfl hb, Int.toNat_of_nonneg hn.le]
      simp
    have hw : wrapInt blockSize = blockSize := wrapInt_eq_self (by omega) hle
    have hd : wrapInt (Int.tdiv blockSize blockSize) = 1 := by
      rw [wrapInt_tdiv_of_nonneg hn.le hle hn, Int.ediv_self hn.ne']
    have hm : (blockSize : ℚ) / (blockSize : ℚ) = 1 := by
      have : (blockSize : ℚ) ≠ 0 := by exact_mod_cast hn.ne'
      exact div_self this
    refine ⟨?_, ?_, ?_, ?_, ?_⟩
    · rw [(hslots band hb).2.2.2, hq, hw]
    · rw [(hslots band hb).1, hs, hw, hd]
    · rw [(hslots band hb).2.1, hs, hm]
    · rw [(hslots band hb).2.2.1, hs, hq, hw, hd, hm]
      norm_num
    · rw [hc band hb, hs, hw, hd]

theorem C5_all_ones_witness :
    (0 < 4 ∧ (0 : Int) < 100 ∧ (100 : Int) * ((4 : Nat) : Int) ≤ 2147483647) ∧
    ∃ (imageBlock : List UShort) (out : DPCOutput) (cents : List Int),
      loadHyperspectralBlock "hyperspectral_data_block.dat" 100 ((4 : Nat) : Int)
        = some imageBlock ∧
      imageBlock.length = (100 : Int).toNat * 4 ∧
      (∀ v ∈ imageBlock, v = 1) ∧
      calculateDPC 4 imageBlock 100 = Outcome.returned out ∧
      calculateCentroidDPC 4 imageBlock 100 = Outcome.returned cents ∧
      ∀ band, band < 4 →
        out.sumOfSquares[band]? = some 100 ∧
        out.centroid[band]? = some 1 ∧
        out.mean[band]? = some (some 1) ∧
        out.variance[band]? = some (some 0) ∧
        cents[band]? = some 1 :=
  ⟨by decide,
    C5_all_ones "hyperspectral_data_block.dat" 4 100 (by decide) (by decide) (by decide)⟩

/-! ## C6: alternating samples -/

theorem alternating_sums (k : Nat) :
    ((List.range (2 * k)).map fun i => if i % 2 = 0 then (0 : Int) else 2).sum = 2 * (k : Int) ∧
    (((List.range (2 * k)).map fun i => if i % 2 = 0 then (0 : Int) else 2).map
      fun v => v * v).sum = 4 * (k : Int) := by
  induction k with
  | zero => simp
  | succ k ih =>
    have e : 2 * (k + 1) = 2 * k + 1 + 1 := by ring
    have h0 : (2 * k) % 2 = 0 := by omega
    have h1 : (2 * k + 1) % 2 = 1 := by omega
    rw [e, List.range_succ, List.range_succ]
    simp only [List.map_append, List.sum_append, List.map_cons, List.map_nil, List.sum_cons,
      List.sum_nil, h0, h1, ih.1, ih.2]
    constructor <;> simp <;> ring

/-- C6: for an even `blockSize > 0` with `4 * blockSize <= 2^31 - 1` and a band whose
samples are `0, 2, 0, 2, ...` over the pixels, `calculateDPC` returns and reports
mean `1` and variance `1` for that band, whatever the rest of the block holds. -/
theorem C6_alternating (BANDS : Nat) (imageBlock : List UShort) (blockSize : Int)
    (band : Nat) (hn : 0 < blockSize) (heven : blockSize % 2 = 0)
    (hfit : 4 * blockSize ≤ 2147483647)
    (_hlen : imageBlock.length = blockSize.toNat * BANDS) (hb : band < BANDS)
    (halt : ∀ i, i < blockSize.toNat →
      imageBlock[pixelIndex BANDS i band]? = some (if i % 2 = 0 then 0 else 2)) :
    ∃ out, calculateDPC BANDS imageBlock blockSize = Outcome.returned out ∧
      out.mean[band]? = some (some 1) ∧
      out.variance[band]? = some (some 1) := by
  have hsamples : bandSamples BANDS imageBlock blockSize band
      = (List.range blockSize.toNat).map fun i => if i % 2 = 0 then (0 : Int) else 2 := by
    unfold bandSamples
    apply List.map_congr_left
    intro i hi
    have h := halt i (List.mem_range.mp hi)
    simp only [imgAcc, List.getD_eq_getElem?_getD, h, Option.getD_some]
    split <;> rfl
  obtain ⟨k, hk⟩ : ∃ k : Nat, blockSize.toNat = 2 * k := ⟨blockSize.toNat / 2, by omega⟩
  have hbs : blockSize = 2 * (k : Int) := by omega
  have hs : bandSum BANDS imageBlock blockSize band = blockSize := by
    rw [bandSum, hsamples, hk, (alternating_sums k).1, hbs]
  have hq : bandSumSq BANDS imageBlock blockSize band = 2 * blockSize := by
    rw [bandSumSq, hsamples, hk, (alternating_sums k).2, hbs]; ring
  have hw : wrapInt (2 * blockSize) = 2 * blockSize := wrapInt_eq_self (by omega) (by omega)
  have hd : wrapInt (Int.tdiv (2 * blockSize) blockSize) = 2 := by
    rw [wrapInt_tdiv_of_nonneg (by omega) (by omega) hn, Int.mul_ediv_cancel _ hn.ne']
  have hm : (blockSize : ℚ) / (blockSize : ℚ) = 1 := by
    have : (blockSize : ℚ) ≠ 0 := by exact_mod_cast hn.ne'
    exact div_self this
  obtain ⟨out, hout, _, _, _, _, hslots⟩ := calculateDPC_slots BANDS imageBlock hn.ne'
  refine ⟨out, hout, ?_, ?_⟩
  · rw [(hslots band hb).2.1, hs, hm]
  · rw [(hslots band hb).2.2.1, hs, hq, hw, hd, hm]
    norm_num

theorem C6_alternating_witness :
    ((0 : Int) < 4 ∧ (4 : Int) % 2 = 0 ∧ 4 * (4 : Int) ≤ 2147483647 ∧
      ([0, 9, 2, 7, 0, 65535, 2, 1] : List UShort).length = (4 : Int).toNat * 2 ∧ 0 < 2 ∧
      ∀ i, i < (4 : Int).toNat →
        ([0, 9, 2, 7, 0, 65535, 2, 1] : List UShort)[pixelIndex 2 i 0]?
          = some (if i % 2 = 0 then 0 else 2)) ∧
    ∃ out, calculateDPC 2 [0, 9, 2, 7, 0, 65535, 2, 1] 4 = Outcome.returned out ∧
      out.mean[0]? = some (some 1) ∧
      out.variance[0]? = some (some 1) :=
  ⟨by decide,
    C6_alternating 2 [0, 9, 2, 7, 0, 65535, 2, 1] 4 0 (by decide) (by decide) (by decide)
      (by decide) (by decide) (by decide)⟩

/-! ## C8: bands are independent -/

/-- C8: if two blocks of `blockSize * BANDS` samples agree at every position
`i * BANDS + band` with `i < blockSize`, then `calculateDPC` returns on both and
reports the same centroid, mean, variance and sum of squares for `band` on
both. -/
theorem C8_band_independent (BANDS : Nat) (block₁ block₂ : List UShort) (blockSize : Int)
    (band : Nat) (hn : 0 < blockSize)
    (_hlen₁ : block₁.length = blockSize.toNat * BANDS)
    (_hlen₂ : block₂.length = blockSize.toNat * BANDS) (hb : band < BANDS)
    (hagree : ∀ i, i < blockSize.toNat →
      block₁[pixelIndex BANDS i band]? = block₂[pixelIndex BANDS i band]?) :
    ∃ (out₁ out₂ : DPCOutput) (c : Int) (m v : Option ℚ) (q : Int),
      calculateDPC BANDS block₁ blockSize = Outcome.returned out₁ ∧
      calculateDPC BANDS block₂ blockSize = Outcome.returned out₂ ∧
      out₁.centroid[band]? = some c ∧ out₂.centroid[band]? = some c ∧
      out₁.mean[band]? = some m ∧ out₂.mean[band]? = some m ∧
      out₁.variance[band]? = some v ∧ out₂.variance[band]? = some v ∧
      out₁.sumOfSquares[band]? = some q ∧ out₂.sumOfSquares[band]? = some q := by
  have hsamples : bandSamples BANDS block₁ blockSize band
      = bandSamples BANDS block₂ blockSize band := by
    unfold bandSamples
    apply List.map_congr_left
    intro i hi
    simp only [imgAcc, List.getD_eq_getElem?_getD, hagree i (List.mem_range.mp hi)]
  have hs : bandSum BANDS block₁ blockSize band = bandSum BANDS block₂ blockSize band := by
    simp only [bandSum, hsamples]
  have hq : bandSumSq BANDS block₁ blockSize band = bandSumSq BANDS block₂ blockSize band := by
    simp only [bandSumSq, hsamples]
  obtain ⟨out₁, hout₁, _, _, _, _, hslots₁⟩ := calculateDPC_slots BANDS block₁ hn.ne'
  obtain ⟨out₂, hout₂, _, _, _, _, hslots₂⟩ := calculateDPC_slots BANDS block₂ hn.ne'
  have h₁ := hslots₁ band hb
  have h₂ := hslots₂ band hb
  rw [hs, hq] at h₁
  exact ⟨out₁, out₂, _, _, _, _, hout₁, hout₂, h₁.1, h₂.1, h₁.2.1, h₂.2.1, h₁.2.2.1, h₂.2.2.1,
    h₁.2.2.2, h₂.2.2.2⟩

theorem C8_band_independent_witness :
    ((0 : Int) < 2 ∧ ([3, 100, 5, 200] : List UShort).length = (2 : Int).toNat * 2 ∧
      ([3, 7, 5, 9] : List UShort).length = (2 : Int).toNat * 2 ∧ 0 < 2 ∧
      ∀ i, i < (2 : Int).toNat →
        ([3, 100, 5, 200] : List UShort)[pixelIndex 2 i 0]?
          = ([3, 7, 5, 9] : List UShort)[pixelIndex 2 i 0]?) ∧
    ∃ (out₁ out₂ : DPCOutput) (c : Int) (m v : Option ℚ) (q : Int),
      calculateDPC 2 [3, 100, 5, 200] 2 = Outcome.returned out₁ ∧
      calculateDPC 2 [3, 7, 5, 9] 2 = Outcome.returned out₂ ∧
      out₁.centroid[0]? = some c ∧ out₂.centroid[0]? = some c ∧
      out₁.mean[0]? = some m ∧ out₂.mean[0]? = some m ∧
      out₁.variance[0]? = some v ∧ out₂.variance[0]? = some v ∧
      out₁.sumOfSquares[0]? = some q ∧ out₂.sumOfSquares[0]? = some q :=
  ⟨by decide,
    C8_band_independent 2 [3, 100, 5, 200] [3, 7, 5, 9] 2 0 (by decide) (by decide)
      (by decide) (by decide) (by decide)⟩

/-! ## C9: reads are in bounds and the layout is a bijection -/

theorem foldr_min_le (l : List Int) (s : Int) :
    l.foldr min s ≤ s ∧ ∀ v ∈ l, l.foldr min s ≤ v := by
  induction l with
  | nil => simp
  | cons a t ih =>
    simp only [List.foldr_cons, List.mem_cons, forall_eq_or_imp]
    refine ⟨le_trans (min_le_right _ _) ih.1, min_le_left _ _, fun v hv => ?_⟩
    exact le_trans (min_le_right _ _) (ih.2 v hv)

theorem le_foldr_max (l : List Int) (s : Int) :
    s ≤ l.foldr max s ∧ ∀ v ∈ l, v ≤ l.foldr max s := by
  induction l with
  | nil => simp
  | cons a t ih =>
    simp only [List.foldr_cons, List.mem_cons, forall_eq_or_imp]
    refine ⟨le_trans ih.1 (le_max_right _ _), le_max_left _ _, fun v hv => ?_⟩
    exact le_trans (ih.2 v hv) (le_max_right _ _)

theorem foldr_min_mem (l : List Int) (s : Int) (hne : l ≠ []) (hs : ∀ v ∈ l, v ≤ s) :
    l.foldr min s ∈ l := by
  induction l with
  | nil => exact absurd rfl hne
  | cons a t ih =>
    simp only [List.foldr_cons, List.mem_cons]
    rcases min_choice a (t.foldr min s) with h | h
    · exact Or.inl h
    · by_cases ht : t = []
      · subst ht
        left
        simp only [List.foldr_nil]
        exact min_eq_left (hs a (List.mem_cons_self a []))
      · right
        rw [h]
        exact ih ht fun v hv => hs v (List.mem_cons_of_mem a hv)

theorem foldr_max_mem (l : List Int) (s : Int) (hne : l ≠ []) (hs : ∀ v ∈ l, s ≤ v) :
    l.foldr max s ∈ l := by
  induction l with
  | nil => exact absurd rfl hne
  | cons a t ih =>
    simp only [List.foldr_cons, List.mem_cons]
    rcases max_choice a (t.foldr max s) with h | h
    · exact Or.inl h
    · by_cases ht : t = []
      · subst ht
        left
        simp only [List.foldr_nil]
        exact max_eq_left (hs a (List.mem_cons_self a []))
      · right
        rw [h]
        exact ih ht fun v hv => hs v (List.mem_cons_of_mem a hv)

/-- C10: for `blockSize > 0`, when the exact sum of the samples of a band is at most
`2^31 - 1` (which holds whenever `blockSize <= 32768`), `calculateCentroidDPC` and
`calculateDPC` return and report the same centroid `c` for the band, and `c` lies
between the smallest and the largest sample of the band, hence in `0 .. 65535`. -/
theorem C10_centroid_between_min_max (BANDS : Nat) (imageBlock : List UShort)
    (blockSize : Int) (band : Nat) (hn : 0 < blockSize)
    (_hlen : imageBlock.length = blockSize.toNat * BANDS) (hb : band < BANDS) :
    (blockSize ≤ 32768 → bandSum BANDS imageBlock blockSize band ≤ 2147483647) ∧
    (bandSum BANDS imageBlock blockSize band ≤ 2147483647 →
      ∃ (cents : List Int) (out : DPCOutput) (c : Int),
        calculateCentroidDPC BANDS imageBlock blockSize = Outcome.returned cents ∧
        calculateDPC BANDS imageBlock blockSize = Outcome.returned out ∧
        cents[band]? = some c ∧
        out.centroid[band]? = some c ∧
        bandMin BANDS imageBlock blockSize band ∈ bandSamples BANDS imageBlock blockSize band ∧
        bandMax BANDS imageBlock blockSize band ∈ bandSamples BANDS imageBlock blockSize band ∧
        (∀ v ∈ bandSamples BANDS imageBlock blockSize band,
          bandMin BANDS imageBlock blockSize band ≤ v ∧
          v ≤ bandMax BANDS imageBlock blockSize band) ∧
        bandMin BANDS imageBlock blockSize band ≤ c ∧
        c ≤ bandMax BANDS imageBlock blockSize band ∧
        0 ≤ c ∧ c ≤ 65535) := by
  have hbounds := bandSamples_bounds BANDS imageBlock blockSize band
  have hlenS := bandSamples_length BANDS imageBlock blockSize band
  have hcast : ((blockSize.toNat : Nat) : Int) = blockSize := Int.toNat_of_nonneg hn.le
  have h0 := bandSum_nonneg BANDS imageBlock blockSize band
  constructor
  · intro hsmall
    have h := bandSum_le BANDS imageBlock blockSize band
    rw [hcast] at h
    omega
  · intro hfit
    have hne : bandSamples BANDS imageBlock blockSize band ≠ [] := by
      intro h
      rw [h] at hlenS
      simp only [List.length_nil] at hlenS
      omega
    have hmin := foldr_min_le (bandSamples BANDS imageBlock blockSize band) 65535
    have hmax := le_foldr_max (bandSamples BANDS imageBlock blockSize band) 0
    have hminmem := foldr_min_mem _ 65535 hne fun v hv => (hbounds v hv).2
    have hmaxmem := foldr_max_mem _ 0 hne fun v hv => (hbounds v hv).1
    have hsum := list_sum_bounds (bandSamples BANDS imageBlock blockSize band)
      (bandMin BANDS imageBlock blockSize band) (bandMax BANDS imageBlock blockSize band)
      fun v hv => ⟨hmin.2 v hv, hmax.2 v hv⟩
    rw [hlenS, hcast] at hsum
    change _ ≤ bandSum BANDS imageBlock blockSize band ∧
      bandSum BANDS imageBlock blockSize band ≤ _ at hsum
    have hlo : bandMin BANDS imageBlock blockSize band
        ≤ bandSum BANDS imageBlock blockSize band / blockSize := by
      rw [Int.le_ediv_iff_mul_le hn, Int.mul_comm]
      exact hsum.1
    have hhi : bandSum BANDS imageBlock blockSize band / blockSize
        ≤ bandMax BANDS imageBlock blockSize band := by
      apply Int.le_of_lt_add_one
      rw [Int.ediv_lt_iff_lt_mul hn]
      nlinarith [hsum.2]
    have hminlo : 0 ≤ bandMin BANDS imageBlock blockSize band := (hbounds _ hminmem).1
    have hmaxhi : bandMax BANDS imageBlock blockSize band ≤ 65535 := (hbounds _ hmaxmem).2
    obtain ⟨out, hout, _, _, _, _, hslots⟩ := calculateDPC_slots BANDS imageBlock hn.ne'
    obtain ⟨cents, hcents, _, hc⟩ := calculateCentroidDPC_slots BANDS imageBlock hn.ne'
    have hval : wrapInt (Int.tdiv (wrapInt (bandSum BANDS imageBlock blockSize band)) blockSize)
        = bandSum BANDS imageBlock blockSize band / blockSize := by
      rw [wrapInt_eq_self (by omega) hfit, wrapInt_tdiv_of_nonneg h0 hfit hn]
    refine ⟨cents, out, bandSum BANDS imageBlock blockSize band / blockSize, hcents, hout,
      ?_, ?_, hminmem, hmaxmem, fun v hv => ⟨hmin.2 v hv, hmax.2 v hv⟩, hlo, hhi,
      by omega, by omega⟩
    · rw [hc band hb, hval]
    · rw [(hslots band hb).1, hval]

theorem C10_centroid_between_min_max_witness :
    ((0 : Int) < 2 ∧ ([3, 100, 8, 200] : List UShort).length = (2 : Int).toNat * 2 ∧ 1 < 2) ∧
    ((2 : Int) ≤ 32768 → bandSum 2 [3, 100, 8, 200] 2 1 ≤ 2147483647) ∧
    (bandSum 2 [3, 100, 8, 200] 2 1 ≤ 2147483647 →
      ∃ (cents : List Int) (out : DPCOutput) (c : Int),
        calculateCentroidDPC 2 [3, 100, 8, 200] 2 = Outcome.returned cents ∧
        calculateDPC 2 [3, 100, 8, 200] 2 = Outcome.returned out ∧
        cents[1]? = some c ∧
        out.centroid[1]? = some c ∧
        bandMin 2 [3, 100, 8, 200] 2 1 ∈ bandSamples 2 [3, 100, 8, 200] 2 1 ∧
        bandMax 2 [3, 100, 8, 200] 2 1 ∈ bandSamples 2 [3, 100, 8, 200] 2 1 ∧
        (∀ v ∈ bandSamples 2 [3, 100, 8, 200] 2 1,
          bandMin 2 [3, 100, 8, 200] 2 1 ≤ v ∧ v ≤ bandMax 2 [3, 100, 8, 200] 2 1) ∧
        bandMin 2 [3, 100, 8, 200] 2 1 ≤ c ∧
        c ≤ bandMax 2 [3, 100, 8, 200] 2 1 ∧
        0 ≤ c ∧ c ≤ 65535) :=
  ⟨by decide,
    C10_centroid_between_min_max 2 [3, 100, 8, 200] 2 1 (by decide) (by decide) (by decide)⟩

/-! ## C7: the pixel order does not matter -/

theorem getD_flatten_uniform {α : Type} (w : Nat) (d : α) (rows : List (List α))
    (hrows : ∀ r ∈ rows, r.length = w) (i b : Nat) (hb : b < w) :
    rows.flatten.getD (i * w + b) d = (rows.getD i []).getD b d := by
  induction rows generalizing i with
  | nil => simp
  | cons r rs ih =>
    have hr : r.length = w := hrows r (List.mem_cons_self r rs)
    have hrs : ∀ x ∈ rs, x.length = w := fun x hx => hrows x (List.mem_cons_of_mem r hx)
    rw [List.flatten_cons]
    cases i with
    | zero =>
      rw [List.getD_append _ _ _ _ (by omega)]
      simp
    | succ j =>
      have hidx : (j + 1) * w + b - r.length = j * w + b := by
        rw [hr, Nat.add_mul]; omega
      rw [List.getD_append_right _ _ _ _ (by rw [hr, Nat.add_mul]; omega), hidx, ih hrs j]
      simp

theorem pixelRow_length (BANDS : Nat) (imageBlock : List UShort) (i : Nat) :
    (pixelRow BANDS imageBlock i).length = BANDS := by
  simp [pixelRow]

theorem reorderPixels_length (BANDS : Nat) (imageBlock : List UShort) (order : List Nat) :
    (reorderPixels BANDS imageBlock order).length = order.length * BANDS := by
  induction order with
  | nil => simp [reorderPixels]
  | cons a t ih =>
    simp only [reorderPixels, List.map_cons, List.flatten_cons, List.length_append,
      pixelRow_length, List.length_cons] at ih ⊢
    rw [ih]; ring

theorem imgAcc_reorderPixels (BANDS : Nat) (imageBlock : List UShort) (order : List Nat)
    {i band : Nat} (hi : i < order.length) (hb : band < BANDS) :
    imgAcc (reorderPixels BANDS imageBlock order) (pixelIndex BANDS i band)
      = imgAcc imageBlock (pixelIndex BANDS (order.getD i 0) band) := by
  unfold imgAcc reorderPixels
  rw [pixelIndex, getD_flatten_uniform BANDS 0 _ _ i band hb]
  · have hrow : (order.map (pixelRow BANDS imageBlock)).getD i []
        = pixelRow BANDS imageBlock (order.getD i 0) := by
      rw [List.getD_eq_getElem _ _ (by simpa using hi), List.getD_eq_getElem _ _ hi]
      simp
    rw [hrow, pixelRow, List.getD_eq_getElem _ _ (by simpa using hb)]
    simp [imgAcc]
  · intro r hr
    obtain ⟨j, _, rfl⟩ := List.mem_map.mp hr
    exact pixelRow_length BANDS imageBlock j

theorem map_getD_range {α : Type} (f : Nat → α) (order : List Nat) :
    (List.range order.length).map (fun i => f (order.getD i 0)) = order.map f := by
  apply List.ext_getElem
  · simp
  · intro k h₁ h₂
    have hk : k < order.length := by simpa using h₂
    simp [List.getElem?_eq_getElem hk]

theorem bandSamples_reorderPixels (BANDS : Nat) (imageBlock : List UShort) (blockSize : Int)
    (order : List Nat) {band : Nat} (hlen : order.length = blockSize.toNat)
    (hb : band < BANDS) :
    bandSamples BANDS (reorderPixels BANDS imageBlock order) blockSize band
      = order.map fun j => ((imgAcc imageBlock (pixelIndex BANDS j band)).val : Int) := by
  rw [← map_getD_range (fun j => ((imgAcc imageBlock (pixelIndex BANDS j band)).val : Int)) order]
  unfold bandSamples
  rw [hlen]
  apply List.map_congr_left
  intro i hi
  rw [imgAcc_reorderPixels BANDS imageBlock order (hlen ▸ List.mem_range.mp hi) hb]

/-- C7: for `blockSize > 0`, a block of `blockSize * BANDS` samples and any
arrangement `order` of the pixel indices `0 .. blockSize - 1`, the block whose
pixels are taken in that order has the same shape, and `calculateDPC` returns
exactly the same output arrays (centroid, mean, variance, sum of squares of every
band) on it as on the original block. -/
theorem C7_pixel_order_invariant (BANDS : Nat) (imageBlock : List UShort) (blockSize : Int)
    (order : List Nat) (hn : 0 < blockSize)
    (_hlen : imageBlock.length = blockSize.toNat * BANDS)
    (hperm : order.Perm (List.range blockSize.toNat)) :
    (reorderPixels BANDS imageBlock order).length = blockSize.toNat * BANDS ∧
    ∃ out, calculateDPC BANDS imageBlock blockSize = Outcome.returned out ∧
      calculateDPC BANDS (reorderPixels BANDS imageBlock order) blockSize
        = Outcome.returned out := by
  have hol : order.length = blockSize.toNat := by
    rw [hperm.length_eq, List.length_range]
  refine ⟨by rw [reorderPixels_length, hol], _, calculateDPC_eq BANDS imageBlock hn.ne', ?_⟩
  have hsum : ∀ band ∈ List.range BANDS,
      bandSum BANDS (reorderPixels BANDS imageBlock order) blockSize band
          = bandSum BANDS imageBlock blockSize band ∧
      bandSumSq BANDS (reorderPixels BANDS imageBlock order) blockSize band
          = bandSumSq BANDS imageBlock blockSize band := by
    intro band hband
    have hb : band < BANDS := List.mem_range.mp hband
    have hp : (bandSamples BANDS (reorderPixels BANDS imageBlock order) blockSize band).Perm
        (bandSamples BANDS imageBlock blockSize band) := by
      rw [bandSamples_reorderPixels BANDS imageBlock blockSize order hol hb]
      exact hperm.map _
    exact ⟨hp.sum_eq, (hp.map _).sum_eq⟩
  rw [calculateDPC_eq BANDS (reorderPixels BANDS imageBlock order) hn.ne']
  congr 2
  · exact List.map_congr_left fun band hband => by rw [(hsum band hband).1]
  · exact List.map_congr_left fun band hband => by rw [(hsum band hband).1]
  · exact List.map_congr_left fun band hband => by rw [(hsum band hband).1, (hsum band hband).2]
  · exact List.map_congr_left fun band hband => by rw [(hsum band hband).2]

theorem C7_pixel_order_invariant_witness :
    ((0 : Int) < 3 ∧ ([3, 4, 5, 6, 7, 8] : List UShort).length = (3 : Int).toNat * 2 ∧
      ([2, 0, 1] : List Nat).Perm (List.range (3 : Int).toNat)) ∧
    reorderPixels 2 [3, 4, 5, 6, 7, 8] [2, 0, 1] = [7, 8, 3, 4, 5, 6] ∧
    (reorderPixels 2 [3, 4, 5, 6, 7, 8] [2, 0, 1]).length = (3 : Int).toNat * 2 ∧
    ∃ out, calculateDPC 2 [3, 4, 5, 6, 7, 8] 3 = Outcome.returned out ∧
      calculateDPC 2 (reorderPixels 2 [3, 4, 5, 6, 7, 8] [2, 0, 1]) 3
        = Outcome.returned out :=
  ⟨by decide, by decide,
    C7_pixel_order_invariant 2 [3, 4, 5, 6, 7, 8] 3 [2, 0, 1] (by decide) (by decide)
      (by decide)⟩

end LabDPC
